import Mathlib

/-!
Verification development for the `events` library: higher-order wrappers
(`throttle`, `finalEvent`, `initialEvent`, `animationEvent`, `startInterval`)
that shape the temporal behaviour of callback invocation.

The embedding models the host scheduler explicitly: armed timers and armed
animation frames live in a list inside the state, calls and timer firings are
events processed in time order, and every callback invocation is recorded in a
trace log carrying the time and the argument list it was invoked with.
Timestamps are natural numbers (milliseconds); an argument list is a
`List Int`.  JavaScript's `timeNow - lastCall > timeout` is modelled with
truncated natural subtraction, which agrees with the JavaScript comparison for
every pair of timestamps (when `timeNow < lastCall` both give `false`).
-/

namespace Events

/-- Record of one callback invocation made by a `throttle` wrapper: either on
the immediate (leading) path or by the firing of the deferred trailing timer.
Each record carries the time of the invocation and the argument list passed
to the callback. -/
inductive Inv where
  | immediate (t : Nat) (args : List Int)
  | deferred (t : Nat) (args : List Int)
deriving DecidableEq, Repr

/-- An armed `setTimeout` timer in the host scheduler: its numeric handle, the
time it is due to fire, and the argument list the scheduled closure will pass
to the callback. -/
structure Timer where
  id : Nat
  fireAt : Nat
  args : List Int
deriving DecidableEq, Repr

/-- Closure state of one `throttle` wrapper instance together with the slice
of the host scheduler it interacts with.  `lastCall` and `timer` are the two
closure variables of the source; `armed` is the list of timers this instance
has armed in the host scheduler that have neither fired nor been cancelled;
`nextId` generates fresh timer handles; `log` is the invocation trace. -/
structure ThrottleState where
  lastCall : Option Nat
  timer : Option Nat
  armed : List Timer
  nextId : Nat
  log : List Inv
deriving DecidableEq, Repr

/-- Initial state of a fresh `throttle` wrapper instance: both closure
variables are `undefined`, no timer armed, nothing invoked yet. -/
def ThrottleState.init : ThrottleState := ⟨none, none, [], 0, []⟩

/-- Host scheduler step for `throttle` timers: every armed timer due at or
before `now` fires (its closure runs `callback(...args)`, which only appends
a deferred-invocation record to the trace) and leaves the scheduler.  The
closure variables `lastCall` and `timer` are untouched: the scheduled closure
in the source is `() => callback(...args)` and does no bookkeeping. -/
def fireDue (s : ThrottleState) (now : Nat) : ThrottleState :=
  { s with
    armed := s.armed.filter (fun tm => decide (now < tm.fireAt)),
    log := s.log ++ (s.armed.filter (fun tm => decide (tm.fireAt ≤ now))).map
      (fun tm => Inv.deferred tm.fireAt tm.args) }

/-- Immediate-invocation path of `throttle`: record now as last-invocation
time, invoke the callback with the call arguments, and cancel and clear any
pending deferred call (the source clears `timer` inside the
`typeof timer === "number"` guard, but on this path `timer` ends up
`undefined` either way). -/
def throttleImmediate (s : ThrottleState) (now : Nat) (args : List Int) :
    ThrottleState :=
  { s with
    lastCall := some now,
    timer := none,
    armed := match s.timer with
      | none => s.armed
      | some h => s.armed.filter (fun tm => decide (tm.id ≠ h)),
    log := s.log ++ [Inv.immediate now args] }

/-- One call to the function returned by `throttle(callback, timeout,
executeLastEvent)` at time `now` with arguments `args`, translated from
`src/src/events.ts` lines 24-36. -/
def throttleCall (timeout : Nat) (executeLastEvent : Bool) (s : ThrottleState)
    (now : Nat) (args : List Int) : ThrottleState :=
  match s.lastCall with
  | none => throttleImmediate s now args
  | some lc =>
    if timeout < now - lc then
      throttleImmediate s now args
    else if executeLastEvent = true ∧ s.timer = none then
      { s with
        timer := some s.nextId,
        armed := s.armed ++ [⟨s.nextId, now + timeout, args⟩],
        nextId := s.nextId + 1 }
    else
      s

/-- Process a list of calls `(time, args)` in order; before each call the
host fires every timer already due at that call's time. -/
def throttleCalls (timeout : Nat) (executeLastEvent : Bool) :
    ThrottleState → List (Nat × List Int) → ThrottleState
  | s, [] => s
  | s, (t, a) :: rest =>
    throttleCalls timeout executeLastEvent
      (throttleCall timeout executeLastEvent (fireDue s t) t a) rest

/-- Run a fresh `throttle` instance over a list of calls and then let the
host clock advance to `endTime`, firing whatever is still armed and due. -/
def throttleRun (timeout : Nat) (executeLastEvent : Bool)
    (calls : List (Nat × List Int)) (endTime : Nat) : ThrottleState :=
  fireDue (throttleCalls timeout executeLastEvent ThrottleState.init calls)
    endTime

/-- An externally observable event for a `throttle` instance: a call to the
wrapped function, or the host clock reaching time `t` (firing due timers). -/
inductive ThrottleEv where
  | call (t : Nat) (args : List Int)
  | tick (t : Nat)
deriving DecidableEq, Repr

/-- Step of the event semantics for `throttle`. -/
def throttleStepEv (timeout : Nat) (executeLastEvent : Bool)
    (s : ThrottleState) : ThrottleEv → ThrottleState
  | ThrottleEv.call t a =>
    throttleCall timeout executeLastEvent (fireDue s t) t a
  | ThrottleEv.tick t => fireDue s t

/-- Run a fresh `throttle` instance over an arbitrary event sequence. -/
def throttleRunEv (timeout : Nat) (executeLastEvent : Bool)
    (evs : List ThrottleEv) : ThrottleState :=
  evs.foldl (throttleStepEv timeout executeLastEvent) ThrottleState.init

/-- One call to the function returned by the `src/unnamed/part_000` variant of
`throttle(callback, timeout, executeLastEvent, ...initArguments)`, translated
from `src/unnamed/part_000` lines 25-42.  The immediate path invokes
`callback(...callArguments)`; the deferred trailing path arms a timer whose
closure invokes `callback(...callArguments, ...initArguments)`. -/
def throttleCallP (timeout : Nat) (executeLastEvent : Bool)
    (initArguments : List Int) (s : ThrottleState) (now : Nat)
    (args : List Int) : ThrottleState :=
  match s.lastCall with
  | none => throttleImmediate s now args
  | some lc =>
    if timeout < now - lc then
      throttleImmediate s now args
    else if executeLastEvent = true ∧ s.timer = none then
      { s with
        timer := some s.nextId,
        armed := s.armed ++ [⟨s.nextId, now + timeout, args ++ initArguments⟩],
        nextId := s.nextId + 1 }
    else
      s

/-- Closure state of one `finalEvent` wrapper instance plus its slice of the
host scheduler.  The `finalEvent` trace records plain `(time, args)` pairs:
every invocation it ever makes comes from a timer firing. -/
structure FinalState where
  timer : Option Nat
  armed : List Timer
  nextId : Nat
  log : List (Nat × List Int)
deriving DecidableEq, Repr

/-- Initial state of a fresh `finalEvent` wrapper instance. -/
def FinalState.init : FinalState := ⟨none, [], 0, []⟩

/-- Host scheduler step for `finalEvent` timers: every armed timer due at or
before `now` fires and leaves the scheduler; the closure variable `timer` is
untouched. -/
def finalFireDue (s : FinalState) (now : Nat) : FinalState :=
  { s with
    armed := s.armed.filter (fun tm => decide (now < tm.fireAt)),
    log := s.log ++ (s.armed.filter (fun tm => decide (tm.fireAt ≤ now))).map
      (fun tm => (tm.fireAt, tm.args)) }

/-- One call to the function returned by `finalEvent(callback, timeout)` at
time `now` with arguments `args`, translated from `src/src/events.ts` lines
61-64: `clearTimeout(timer)` (a no-op when `timer` is `undefined`), then arm
a fresh timer for `now + timeout` capturing `args`. -/
def finalCall (timeout : Nat) (s : FinalState) (now : Nat) (args : List Int) :
    FinalState :=
  { s with
    timer := some s.nextId,
    armed := (match s.timer with
      | none => s.armed
      | some h => s.armed.filter (fun tm => decide (tm.id ≠ h))) ++
      [⟨s.nextId, now + timeout, args⟩],
    nextId := s.nextId + 1 }

/-- Process a list of calls `(time, args)` through a `finalEvent` instance in
order, firing due timers before each call. -/
def finalCalls (timeout : Nat) : FinalState → List (Nat × List Int) → FinalState
  | s, [] => s
  | s, (t, a) :: rest => finalCalls timeout (finalCall timeout (finalFireDue s t) t a) rest

/-- Run a fresh `finalEvent` instance over a list of calls and then let the
host clock advance to `endTime`. -/
def finalRun (timeout : Nat) (calls : List (Nat × List Int)) (endTime : Nat) :
    FinalState :=
  finalFireDue (finalCalls timeout FinalState.init calls) endTime

/-- An externally observable event for a `finalEvent` instance. -/
inductive FinalEv where
  | call (t : Nat) (args : List Int)
  | tick (t : Nat)
deriving DecidableEq, Repr

/-- Step of the event semantics for `finalEvent`. -/
def finalStepEv (timeout : Nat) (s : FinalState) : FinalEv → FinalState
  | FinalEv.call t a => finalCall timeout (finalFireDue s t) t a
  | FinalEv.tick t => finalFireDue s t

/-- Run a fresh `finalEvent` instance over an arbitrary event sequence. -/
def finalRunEv (timeout : Nat) (evs : List FinalEv) : FinalState :=
  evs.foldl (finalStepEv timeout) FinalState.init

/-- Closure state of one `initialEvent` wrapper instance: the single closure
variable `lastCall` plus the invocation trace. -/
structure InitialState where
  lastCall : Option Nat
  log : List (Nat × List Int)
deriving DecidableEq, Repr

/-- Initial state of a fresh `initialEvent` wrapper instance. -/
def InitialState.init : InitialState := ⟨none, []⟩

/-- Guard of `initialEvent`, translated from `src/src/events.ts` lines 91-94:
the callback fires when `lastCall` is `undefined` or `now - lastCall` is
strictly greater than `timeout`. -/
def initialFires (timeout : Nat) (lastCall : Option Nat) (now : Nat) : Bool :=
  match lastCall with
  | none => true
  | some lc => decide (timeout < now - lc)

/-- One call to the function returned by `initialEvent(callback, timeout)` at
time `now` with arguments `args`, translated from `src/src/events.ts` lines
89-98: invoke the callback when the guard holds, then unconditionally set
`lastCall` to `now`. -/
def initialEventCall (timeout : Nat) (s : InitialState) (now : Nat)
    (args : List Int) : InitialState :=
  { lastCall := some now,
    log := if initialFires timeout s.lastCall now then s.log ++ [(now, args)]
      else s.log }

/-- An armed `requestAnimationFrame` registration in the host scheduler: its
numeric handle and the call arguments captured by the scheduled closure. -/
structure Frame where
  id : Nat
  args : List Int
deriving DecidableEq, Repr

/-- Closure state of one `animationEvent` wrapper instance plus its slice of
the host frame scheduler.  `pendingFrames` are the frame callbacks this
instance has requested that have neither run nor been cancelled; `log`
records the full argument list of each callback invocation. -/
structure AnimState where
  frame : Option Nat
  pendingFrames : List Frame
  nextId : Nat
  log : List (List Int)
deriving DecidableEq, Repr

/-- Initial state of a fresh `animationEvent` wrapper instance. -/
def AnimState.init : AnimState := ⟨none, [], 0, []⟩

/-- One call to the function returned by `animationEvent(callback)` at
arguments `args`, translated from `src/src/events.ts` lines 120-125 (the
`src/unnamed/part_000` variant, lines 142-153, schedules identically and
differs only in what the scheduled closure passes to the callback): cancel
the previously requested frame callback if the handle is a number, then
request a new frame callback capturing `args`. -/
def animCall (s : AnimState) (args : List Int) : AnimState :=
  { s with
    frame := some s.nextId,
    pendingFrames := (match s.frame with
      | none => s.pendingFrames
      | some h => s.pendingFrames.filter (fun fr => decide (fr.id ≠ h))) ++
      [⟨s.nextId, args⟩],
    nextId := s.nextId + 1 }

/-- Process a burst of calls through an `animationEvent` instance. -/
def animCalls (s : AnimState) (bursts : List (List Int)) : AnimState :=
  bursts.foldl animCall s

/-- The host renders a frame at timestamp `time`: every pending frame
callback runs.  In `src/src/events.ts` the scheduled closure is
`time => callback(...args, time)`, so the frame timestamp is appended after
the captured call arguments. -/
def animFrame (s : AnimState) (time : Int) : AnimState :=
  { s with
    pendingFrames := [],
    log := s.log ++ s.pendingFrames.map (fun fr => fr.args ++ [time]) }

/-- The host renders a frame at timestamp `time` for the
`src/unnamed/part_000` variant of `animationEvent(callback,
...initArguments)`: there the scheduled closure is
`time => callback(time, ...callArguments, ...initArguments)`, so the frame
timestamp is passed first, before the captured call arguments and the
factory arguments. -/
def animFrameP (initArguments : List Int) (s : AnimState) (time : Int) :
    AnimState :=
  { s with
    pendingFrames := [],
    log := s.log ++ s.pendingFrames.map
      (fun fr => time :: (fr.args ++ initArguments)) }

/-- An externally observable event for an `animationEvent` instance. -/
inductive AnimEv where
  | call (args : List Int)
  | frame (time : Int)
deriving DecidableEq, Repr

/-- Step of the event semantics for `animationEvent` (events.ts variant). -/
def animStepEv (s : AnimState) : AnimEv → AnimState
  | AnimEv.call a => animCall s a
  | AnimEv.frame t => animFrame s t

/-- Run a fresh `animationEvent` instance over an arbitrary event sequence. -/
def animRunEv (evs : List AnimEv) : AnimState :=
  evs.foldl animStepEv AnimState.init

/-- A registered `setInterval` entry in the host scheduler: its numeric
handle, its period, and the extra arguments passed to the handler on each
periodic firing. -/
structure IntervalReg where
  id : Nat
  period : Nat
  args : List Int
deriving DecidableEq, Repr

/-- Host state seen by `startInterval`: the trace of handler invocations
(each entry is the argument list the handler received) and the registered
intervals. -/
structure HostState where
  log : List (List Int)
  intervals : List IntervalReg
  nextId : Nat
deriving DecidableEq, Repr

/-- Initial host state: nothing invoked, no interval registered. -/
def HostState.init : HostState := ⟨[], [], 0⟩

/-- Translation of `startInterval(handler, timeout, ...args)` from
`src/src/events.ts` lines 136-143: `handler()` is invoked synchronously with
no arguments, then `setInterval(handler, timeout, ...args)` registers a
periodic firing that passes `args` each time, and the interval handle is
returned. -/
def startInterval (timeout : Nat) (args : List Int) (s : HostState) :
    HostState × Nat :=
  ({ log := s.log ++ [[]],
     intervals := s.intervals ++ [⟨s.nextId, timeout, args⟩],
     nextId := s.nextId + 1 }, s.nextId)

/-- The host fires one periodic repetition of the interval registered under
handle `h`: the handler is invoked with the registered arguments.  If no
interval is registered under `h`, nothing happens. -/
def fireInterval (s : HostState) (h : Nat) : HostState :=
  { s with
    log := s.log ++ (s.intervals.filter (fun r => decide (r.id = h))).map
      (fun r => r.args) }

/-- The caller cancels the interval registered under handle `h` with the
host's `clearInterval`. -/
def clearInterval (s : HostState) (h : Nat) : HostState :=
  { s with intervals := s.intervals.filter (fun r => decide (r.id ≠ h)) }

/-- The guard of `initialEvent` holds exactly when no prior call occurred or
the elapsed time since the previous call strictly exceeds the timeout. -/
lemma initialFires_iff (timeout : Nat) (lc : Option Nat) (now : Nat) :
    initialFires timeout lc now = true ↔
      (lc = none ∨ ∃ l, lc = some l ∧ timeout < now - l) := by
  cases lc with
  | none => simp [initialFires]
  | some l => simp [initialFires]

/-- C6: on every call to the function returned by `initialEvent`, the
last-call timestamp is unconditionally updated to the current time, and the
callback is invoked immediately with the current arguments if and only if no
prior call occurred or the elapsed time since the previous call to the
wrapped function strictly exceeds `timeout`. -/
theorem initialEvent_leading_iff (timeout : Nat) (s : InitialState)
    (now : Nat) (args : List Int) :
    (initialEventCall timeout s now args).lastCall = some now ∧
    ((initialEventCall timeout s now args).log = s.log ++ [(now, args)] ↔
      (s.lastCall = none ∨ ∃ lc, s.lastCall = some lc ∧ timeout < now - lc)) := by
  refine ⟨rfl, ?_⟩
  rw [← initialFires_iff timeout s.lastCall now]
  by_cases h : initialFires timeout s.lastCall now = true
  · simp [initialEventCall, h]
  · simp [initialEventCall, h]

/-- C7: firing the deferred trailing timer of `throttle` leaves the
last-invocation timestamp unchanged, and a call to the wrapped function
either leaves the last-invocation timestamp unchanged or takes the
immediate-invocation path. -/
theorem throttle_lastCall_only_immediate :
    (∀ (s : ThrottleState) (now : Nat), (fireDue s now).lastCall = s.lastCall) ∧
    (∀ (timeout : Nat) (e : Bool) (s : ThrottleState) (now : Nat)
      (args : List Int),
      (throttleCall timeout e s now args).lastCall = s.lastCall ∨
      throttleCall timeout e s now args = throttleImmediate s now args) := by
  refine ⟨fun s now => rfl, fun timeout e s now args => ?_⟩
  unfold throttleCall
  cases hl : s.lastCall with
  | none => exact Or.inr rfl
  | some lc =>
    by_cases hlt : timeout < now - lc
    · simp [hlt]
    · simp only [if_neg hlt]
      by_cases hg : e = true ∧ s.timer = none
      · simp [hg]
      · simp only [if_neg hg]
        exact Or.inl hl

/-- C4: a call to a `throttle`-wrapped function with no prior immediate
invocation, or whose elapsed time since the last immediate invocation
strictly exceeds `timeout`, invokes the callback immediately with the call's
arguments, sets the last-invocation time to now, clears the timer handle,
and cancels any pending deferred call; a call whose elapsed time equals
`timeout` exactly is throttled, not immediate. -/
theorem throttle_immediate_path_and_boundary (timeout : Nat) (e : Bool)
    (s : ThrottleState) (now : Nat) (args : List Int) :
    ((s.lastCall = none ∨ ∃ lc, s.lastCall = some lc ∧ timeout < now - lc) →
      (throttleCall timeout e s now args).log =
        s.log ++ [Inv.immediate now args] ∧
      (throttleCall timeout e s now args).lastCall = some now ∧
      (throttleCall timeout e s now args).timer = none ∧
      ∀ tm ∈ (throttleCall timeout e s now args).armed,
        tm ∈ s.armed ∧ s.timer ≠ some tm.id) ∧
    (∀ lc, s.lastCall = some lc → now - lc = timeout →
      (throttleCall timeout e s now args).log = s.log ∧
      (throttleCall timeout e s now args).lastCall = s.lastCall) := by
  constructor
  · intro h
    have himm : throttleCall timeout e s now args =
        throttleImmediate s now args := by
      rcases h with h | ⟨lc, hlc, hlt⟩
      · simp [throttleCall, h]
      · simp [throttleCall, hlc, hlt]
    rw [himm]
    refine ⟨rfl, rfl, rfl, ?_⟩
    intro tm htm
    cases ht : s.timer with
    | none =>
      simp only [throttleImmediate, ht] at htm
      exact ⟨htm, by simp⟩
    | some hdl =>
      simp only [throttleImmediate, ht, List.mem_filter,
        decide_eq_true_eq] at htm
      refine ⟨htm.1, ?_⟩
      simp only [ht, ne_eq, Option.some.injEq]
      exact fun hh => htm.2 hh.symm
  · intro lc hlc heq
    have hnlt : ¬ timeout < now - lc := by omega
    simp only [throttleCall, hlc, if_neg hnlt]
    by_cases hg : e = true ∧ s.timer = none
    · simp [hg, hlc]
    · simp [hg, hlc]

/-- C1 counterexample: `startInterval(handler, 10, 5)` does not invoke
`handler(5)` synchronously; the one synchronous invocation passes no
arguments at all. -/
theorem startInterval_immediate_args_counterexample :
    (startInterval 10 [5] HostState.init).1.log ≠ [[5]] ∧
    (startInterval 10 [5] HostState.init).1.log = [[]] := by
  decide

/-- C1 amended: `startInterval(handler, timeout, ...args)` invokes
`handler()` synchronously exactly once with NO arguments before returning,
registers a periodic interval that passes `args` on each periodic
repetition, and returns the interval handle; cancelling that handle stops
further periodic invocations. -/
theorem startInterval_leading_call_and_interval (timeout : Nat)
    (args : List Int) :
    (startInterval timeout args HostState.init).1.log = [[]] ∧
    (startInterval timeout args HostState.init).1.intervals =
      [⟨(startInterval timeout args HostState.init).2, timeout, args⟩] ∧
    (fireInterval (startInterval timeout args HostState.init).1
      (startInterval timeout args HostState.init).2).log = [[], args] ∧
    fireInterval
      (clearInterval (startInterval timeout args HostState.init).1
        (startInterval timeout args HostState.init).2)
      (startInterval timeout args HostState.init).2 =
    clearInterval (startInterval timeout args HostState.init).1
      (startInterval timeout args HostState.init).2 := by
  refine ⟨rfl, rfl, ?_, rfl⟩
  simp [startInterval, fireInterval, HostState.init]

/-- C2: in the `src/unnamed/part_000` variant of `animationEvent`, a burst
of two calls before the next frame yields exactly one callback invocation,
but the frame timestamp is passed FIRST, not appended as the trailing
argument; the `src/src/events.ts` variant appends it last.  Concretely, for
calls with arguments `[1]` then `[2]` and a frame at timestamp `7`, the
part_000 variant invokes the callback with `[7, 2]` while its own doc
comment (and the claim) require `[2, 7]`, which is what events.ts does. -/
theorem animationEvent_timestamp_position :
    (animFrameP [] (animCalls AnimState.init [[1], [2]]) 7).log = [[7, 2]] ∧
    (animFrame (animCalls AnimState.init [[1], [2]]) 7).log = [[2, 7]] ∧
    ([[7, 2]] : List (List Int)) ≠ [[2, 7]] := by
  decide

/-- C4 witness: a concrete immediate-path call (elapsed 6 > timeout 5, with
a pending deferred timer that gets cancelled) and a concrete exact-boundary
call (elapsed 5 = timeout 5, throttled). -/
theorem throttle_immediate_path_and_boundary_at :
    ((throttleCall 5 true ⟨some 0, some 3, [⟨3, 8, [7]⟩], 4, []⟩ 6
        [2]).lastCall = some 6 ∧
      (throttleCall 5 true ⟨some 0, some 3, [⟨3, 8, [7]⟩], 4, []⟩ 6
        [2]).timer = none ∧
      (throttleCall 5 true ⟨some 0, some 3, [⟨3, 8, [7]⟩], 4, []⟩ 6
        [2]).log = [Inv.immediate 6 [2]]) ∧
    ((throttleCall 5 true ⟨some 1, none, [], 0, []⟩ 6 [2]).log = [] ∧
      (throttleCall 5 true ⟨some 1, none, [], 0, []⟩ 6 [2]).lastCall =
        some 1) :=
  ⟨⟨((throttle_immediate_path_and_boundary 5 true
        ⟨some 0, some 3, [⟨3, 8, [7]⟩], 4, []⟩ 6 [2]).1
        (Or.inr ⟨0, rfl, by decide⟩)).2.1,
    ((throttle_immediate_path_and_boundary 5 true
        ⟨some 0, some 3, [⟨3, 8, [7]⟩], 4, []⟩ 6 [2]).1
        (Or.inr ⟨0, rfl, by decide⟩)).2.2.1,
    ((throttle_immediate_path_and_boundary 5 true
        ⟨some 0, some 3, [⟨3, 8, [7]⟩], 4, []⟩ 6 [2]).1
        (Or.inr ⟨0, rfl, by decide⟩)).1⟩,
   ⟨((throttle_immediate_path_and_boundary 5 true
        ⟨some 1, none, [], 0, []⟩ 6 [2]).2 1 rfl (by decide)).1,
    ((throttle_immediate_path_and_boundary 5 true
        ⟨some 1, none, [], 0, []⟩ 6 [2]).2 1 rfl (by decide)).2⟩⟩

/-- C9: when the deferred trailing timer of `throttle` fires, the stored
timer handle is not cleared; consequently a later call whose elapsed time
since the last immediate invocation does not strictly exceed `timeout`
finds the stale handle, arms no new trailing call even with
`executeLastEvent = true`, and has its arguments silently dropped (the
state is completely unchanged). -/
theorem throttle_stale_timer_drops (timeout : Nat) (s : ThrottleState)
    (now : Nat) (args : List Int) (lc hdl : Nat)
    (h1 : s.lastCall = some lc) (h2 : s.timer = some hdl)
    (h3 : now - lc ≤ timeout) :
    throttleCall timeout true s now args = s ∧
    ∀ t, (fireDue s t).timer = s.timer := by
  refine ⟨?_, fun t => rfl⟩
  have hnlt : ¬ timeout < now - lc := by omega
  simp [throttleCall, h1, hnlt, h2]

/-- C9 witness: a reachable state in which the trailing timer has already
fired (tick at 5) while the handle is still stored; the call at time 5
(elapsed 5 ≤ timeout 5) is silently dropped. -/
theorem throttle_stale_timer_drops_at :
    (throttleRunEv 5 true [ThrottleEv.call 0 [1], ThrottleEv.call 0 [2],
      ThrottleEv.tick 5]).lastCall = some 0 ∧
    (throttleRunEv 5 true [ThrottleEv.call 0 [1], ThrottleEv.call 0 [2],
      ThrottleEv.tick 5]).timer = some 0 ∧
    5 - 0 ≤ 5 ∧
    (throttleCall 5 true (throttleRunEv 5 true [ThrottleEv.call 0 [1],
        ThrottleEv.call 0 [2], ThrottleEv.tick 5]) 5 [9] =
      throttleRunEv 5 true [ThrottleEv.call 0 [1], ThrottleEv.call 0 [2],
        ThrottleEv.tick 5] ∧
      ∀ t, (fireDue (throttleRunEv 5 true [ThrottleEv.call 0 [1],
        ThrottleEv.call 0 [2], ThrottleEv.tick 5]) t).timer =
        (throttleRunEv 5 true [ThrottleEv.call 0 [1], ThrottleEv.call 0 [2],
          ThrottleEv.tick 5]).timer) :=
  ⟨by decide, by decide, by decide,
    throttle_stale_timer_drops 5 _ 5 [9] 0 0 (by decide) (by decide)
      (by decide)⟩

/-- C10: in the `src/unnamed/part_000` variant of `throttle`, the immediate
path invokes the callback with only the per-call arguments while the
deferred trailing path appends the factory's `initArguments`; so with a
non-empty `initArguments`, two calls carrying the same argument list `a`
produce an immediate invocation receiving `a` and a trailing invocation
receiving the strictly longer list `a ++ initArguments`. -/
theorem throttleP_trailing_appends_init_args (timeout : Nat)
    (initArguments : List Int) (t1 t2 endTime : Nat) (a : List Int)
    (h0 : initArguments ≠ []) (h1 : t2 - t1 ≤ timeout)
    (h3 : t2 + timeout ≤ endTime) :
    (fireDue (throttleCallP timeout true initArguments
        (throttleCallP timeout true initArguments ThrottleState.init t1 a)
        t2 a) endTime).log =
      [Inv.immediate t1 a, Inv.deferred (t2 + timeout) (a ++ initArguments)] ∧
    a ++ initArguments ≠ a := by
  constructor
  · have e1 : throttleCallP timeout true initArguments ThrottleState.init
        t1 a = ⟨some t1, none, [], 0, [Inv.immediate t1 a]⟩ := rfl
    rw [e1]
    have hnlt : ¬ timeout < t2 - t1 := by omega
    have e2 : throttleCallP timeout true initArguments
        ⟨some t1, none, [], 0, [Inv.immediate t1 a]⟩ t2 a =
        ⟨some t1, some 0, [⟨0, t2 + timeout, a ++ initArguments⟩], 1,
          [Inv.immediate t1 a]⟩ := by
      simp [throttleCallP, hnlt]
    rw [e2]
    have hle : decide (t2 + timeout ≤ endTime) = true := by
      simpa using h3
    have hlt : decide (endTime < t2 + timeout) = false := by
      simp; omega
    simp [fireDue, hle, hlt]
  · intro hEq
    apply h0
    have hlen := congrArg List.length hEq
    simp at hlen
    exact hlen

/-- C10 witness: timeout 10, factory argument list `[9]`, both calls carry
`[1]`; the immediate invocation receives `[1]`, the trailing one `[1, 9]`. -/
theorem throttleP_trailing_appends_init_args_at :
    ([9] : List Int) ≠ [] ∧ 3 - 0 ≤ 10 ∧ 3 + 10 ≤ 20 ∧
    ((fireDue (throttleCallP 10 true [9]
        (throttleCallP 10 true [9] ThrottleState.init 0 [1]) 3 [1]) 20).log =
      [Inv.immediate 0 [1], Inv.deferred 13 [1, 9]] ∧
      ([1, 9] : List Int) ≠ [1]) :=
  ⟨by decide, by decide, by decide,
    throttleP_trailing_appends_init_args 10 [9] 0 3 20 [1] (by decide)
      (by decide) (by decide)⟩

/-- Calls arriving while the trailing timer of `throttle` is armed and the
cooldown window is open leave the state unchanged: their arguments are
dropped. -/
lemma throttleCalls_in_cooldown_dropped (timeout t1 hdl f : Nat)
    (a : List Int) (n : Nat) (lg : List Inv) :
    ∀ rest : List (Nat × List Int),
      (∀ p ∈ rest, p.1 < t1 + timeout ∧ p.1 < f) →
      throttleCalls timeout true ⟨some t1, some hdl, [⟨hdl, f, a⟩], n, lg⟩
        rest = ⟨some t1, some hdl, [⟨hdl, f, a⟩], n, lg⟩ := by
  intro rest
  induction rest with
  | nil => intro _; rfl
  | cons p rest ih =>
    intro hp
    obtain ⟨t, b⟩ := p
    have h1 : t < t1 + timeout := (hp (t, b) (List.mem_cons_self _ _)).1
    have h2 : t < f := (hp (t, b) (List.mem_cons_self _ _)).2
    have hfire : fireDue ⟨some t1, some hdl, [⟨hdl, f, a⟩], n, lg⟩ t =
        ⟨some t1, some hdl, [⟨hdl, f, a⟩], n, lg⟩ := by
      simp [fireDue, h2, Nat.not_le_of_lt h2]
    have hnlt : ¬ timeout < t - t1 := by omega
    have hcall : throttleCall timeout true
        ⟨some t1, some hdl, [⟨hdl, f, a⟩], n, lg⟩ t b =
        ⟨some t1, some hdl, [⟨hdl, f, a⟩], n, lg⟩ := by
      simp [throttleCall, hnlt]
    rw [throttleCalls, hfire, hcall]
    exact ih (fun q hq => hp q (List.mem_cons_of_mem _ hq))

/-- C3: with `executeLastEvent = true`, a fresh `throttle` instance called
at least twice within a window shorter than `timeout` invokes the callback
exactly once immediately (first call) and exactly once as a trailing call
after the window, and the trailing invocation carries the arguments of the
first call made while the trailing timer was unarmed (the second call of
the burst); the arguments of every later call in the burst are dropped. -/
theorem throttle_burst_trailing_args (timeout t1 t2 endTime : Nat)
    (a1 a2 : List Int) (rest : List (Nat × List Int))
    (h12 : t1 ≤ t2) (h2 : t2 < t1 + timeout)
    (hrest : ∀ p ∈ rest, t1 ≤ p.1 ∧ p.1 < t1 + timeout)
    (hend : t2 + timeout ≤ endTime) :
    (throttleRun timeout true ((t1, a1) :: (t2, a2) :: rest) endTime).log =
      [Inv.immediate t1 a1, Inv.deferred (t2 + timeout) a2] ∧
    ∀ p ∈ (t1, a1) :: (t2, a2) :: rest, p.1 < t2 + timeout := by
  constructor
  · unfold throttleRun
    have e1 : throttleCall timeout true (fireDue ThrottleState.init t1) t1
        a1 = ⟨some t1, none, [], 0, [Inv.immediate t1 a1]⟩ := rfl
    have hnlt : ¬ timeout < t2 - t1 := by omega
    have e2 : throttleCall timeout true
        (fireDue ⟨some t1, none, [], 0, [Inv.immediate t1 a1]⟩ t2) t2 a2 =
        ⟨some t1, some 0, [⟨0, t2 + timeout, a2⟩], 1,
          [Inv.immediate t1 a1]⟩ := by
      have efire : fireDue ⟨some t1, none, [], 0, [Inv.immediate t1 a1]⟩
          t2 = ⟨some t1, none, [], 0, [Inv.immediate t1 a1]⟩ := by
        simp [fireDue]
      rw [efire]
      simp [throttleCall, hnlt]
    rw [throttleCalls, e1, throttleCalls, e2,
      throttleCalls_in_cooldown_dropped timeout t1 0 (t2 + timeout) a2 1
        [Inv.immediate t1 a1] rest
        (fun p hp => ⟨(hrest p hp).2, by have := (hrest p hp).2; omega⟩)]
    have hle : decide (t2 + timeout ≤ endTime) = true := by simpa using hend
    have hlt : decide (endTime < t2 + timeout) = false := by simp; omega
    simp [fireDue, hle, hlt]
  · intro p hp
    simp only [List.mem_cons] at hp
    rcases hp with hp | hp | hp
    · rw [hp]; simp; omega
    · rw [hp]; simp; omega
    · have := hrest p hp
      omega

/-- C3 witness: timeout 10, calls at times 0, 3, 5 with arguments `[1]`,
`[2]`, `[3]`; the callback fires immediately at 0 with `[1]` and once as a
trailing call at 13 with `[2]`, the second call's arguments. -/
theorem throttle_burst_trailing_args_at :
    (0 : Nat) ≤ 3 ∧ (3 : Nat) < 0 + 10 ∧
    (∀ p ∈ [((5 : Nat), ([3] : List Int))], 0 ≤ p.1 ∧ p.1 < 0 + 10) ∧
    3 + 10 ≤ 20 ∧
    ((throttleRun 10 true [(0, [1]), (3, [2]), (5, [3])] 20).log =
      [Inv.immediate 0 [1], Inv.deferred (3 + 10) [2]] ∧
      ∀ p ∈ [((0 : Nat), ([1] : List Int)), (3, [2]), (5, [3])],
        p.1 < 3 + 10) :=
  ⟨by decide, by decide, by decide, by decide,
    throttle_burst_trailing_args 10 0 3 20 [1] [2] [(5, [3])] (by decide)
      (by decide) (by decide) (by decide)⟩

/-- Processing a burst through `finalEvent`: as long as each call arrives
less than `timeout` after the previous one, every call cancels the armed
timer and re-arms a fresh one, so the state tracks the latest call of the
burst and nothing is invoked. -/
lemma finalCalls_burst (timeout : Nat) :
    ∀ (rest : List (Nat × List Int)) (tp : Nat) (a : List Int) (n : Nat)
      (lg : List (Nat × List Int)),
      List.Chain (fun p q => q.1 < p.1 + timeout) (tp, a) rest →
      finalCalls timeout ⟨some n, [⟨n, tp + timeout, a⟩], n + 1, lg⟩ rest =
        ⟨some (n + rest.length),
          [⟨n + rest.length,
            (rest.foldl (fun _ q => q) (tp, a)).1 + timeout,
            (rest.foldl (fun _ q => q) (tp, a)).2⟩],
          n + rest.length + 1, lg⟩ := by
  intro rest
  induction rest with
  | nil => intro tp a n lg _; rfl
  | cons p rest ih =>
    intro tp a n lg hch
    obtain ⟨t, b⟩ := p
    simp only [List.chain_cons] at hch
    obtain ⟨hlt, hch⟩ := hch
    have hfire : finalFireDue ⟨some n, [⟨n, tp + timeout, a⟩], n + 1, lg⟩
        t = ⟨some n, [⟨n, tp + timeout, a⟩], n + 1, lg⟩ := by
      simp [finalFireDue, hlt, Nat.not_le_of_lt hlt]
    have hcall : finalCall timeout
        ⟨some n, [⟨n, tp + timeout, a⟩], n + 1, lg⟩ t b =
        ⟨some (n + 1), [⟨n + 1, t + timeout, b⟩], n + 2, lg⟩ := by
      simp [finalCall]
    rw [finalCalls, hfire, hcall, ih t b (n + 1) lg hch]
    simp only [List.length_cons, List.foldl_cons]
    have hn : n + (rest.length + 1) = n + 1 + rest.length := by omega
    rw [hn]

/-- C5: a fresh `finalEvent` instance called through a burst in which every
call arrives less than `timeout` after the previous one invokes the
callback exactly once, `timeout` after the last call of the burst, with the
last call's arguments; moreover a call to the wrapped function never
invokes the callback on its own (no leading invocation), invocations arise
only from timer firings. -/
theorem finalEvent_burst_once (timeout t1 : Nat) (a1 : List Int)
    (rest : List (Nat × List Int)) (endTime : Nat)
    (hch : List.Chain (fun p q => q.1 < p.1 + timeout) (t1, a1) rest)
    (hend : (rest.foldl (fun _ q => q) (t1, a1)).1 + timeout ≤ endTime) :
    (finalRun timeout ((t1, a1) :: rest) endTime).log =
      [((rest.foldl (fun _ q => q) (t1, a1)).1 + timeout,
        (rest.foldl (fun _ q => q) (t1, a1)).2)] ∧
    ∀ (s : FinalState) (t : Nat) (b : List Int),
      (finalCall timeout s t b).log = s.log := by
  refine ⟨?_, fun s t b => rfl⟩
  unfold finalRun
  have e1 : finalCall timeout (finalFireDue FinalState.init t1) t1 a1 =
      ⟨some 0, [⟨0, t1 + timeout, a1⟩], 1, []⟩ := rfl
  rw [finalCalls, e1, finalCalls_burst timeout rest t1 a1 0 [] hch]
  have hle : decide ((rest.foldl (fun _ q => q) (t1, a1)).1 + timeout ≤
      endTime) = true := by simpa using hend
  have hlt : decide (endTime < (rest.foldl (fun _ q => q) (t1, a1)).1 +
      timeout) = false := by simp; omega
  simp [finalFireDue, hle, hlt]

/-- C5 witness: timeout 500 and calls at times 0, 100, 200; the callback
fires exactly once, at time 700, with the last call's arguments `[3]`. -/
theorem finalEvent_burst_once_at :
    List.Chain (fun p q : Nat × List Int => q.1 < p.1 + 500) (0, [1])
      [(100, [2]), (200, [3])] ∧
    ([((100 : Nat), ([2] : List Int)), (200, [3])].foldl (fun _ q => q)
      (0, [1])).1 + 500 ≤ 700 ∧
    ((finalRun 500 [(0, [1]), (100, [2]), (200, [3])] 700).log =
      [(([((100 : Nat), ([2] : List Int)), (200, [3])].foldl
          (fun _ q => q) (0, [1])).1 + 500,
        ([((100 : Nat), ([2] : List Int)), (200, [3])].foldl
          (fun _ q => q) (0, [1])).2)] ∧
      ∀ (s : FinalState) (t : Nat) (b : List Int),
        (finalCall 500 s t b).log = s.log) :=
  ⟨by simp [List.chain_cons], by decide,
    finalEvent_burst_once 500 0 [1] [(100, [2]), (200, [3])] 700
      (by simp [List.chain_cons]) (by decide)⟩

/-- Bursts of calls to an `animationEvent` wrapper coalesce: each call
cancels the previously requested frame callback, so only the latest call's
arguments stay pending. -/
lemma animCalls_coalesce :
    ∀ (rest : List (List Int)) (n : Nat) (a : List Int)
      (lg : List (List Int)),
      animCalls ⟨some n, [⟨n, a⟩], n + 1, lg⟩ rest =
        ⟨some (n + rest.length),
          [⟨n + rest.length, rest.foldl (fun _ q => q) a⟩],
          n + rest.length + 1, lg⟩ := by
  intro rest
  induction rest with
  | nil => intro n a lg; rfl
  | cons b rest ih =>
    intro n a lg
    have hcall : animCall ⟨some n, [⟨n, a⟩], n + 1, lg⟩ b =
        ⟨some (n + 1), [⟨n + 1, b⟩], n + 2, lg⟩ := by
      simp [animCall]
    show animCalls (animCall ⟨some n, [⟨n, a⟩], n + 1, lg⟩ b) rest = _
    rw [hcall, ih (n + 1) b lg]
    simp only [List.length_cons, List.foldl_cons]
    have hn : n + (rest.length + 1) = n + 1 + rest.length := by omega
    rw [hn]

/-- In the `src/src/events.ts` variant of `animationEvent`, any burst of
calls before one frame yields exactly one callback invocation, carrying the
most recent call's arguments with the frame timestamp appended last. -/
lemma animationEvent_coalesce (a1 : List Int) (rest : List (List Int))
    (time : Int) :
    (animFrame (animCalls AnimState.init (a1 :: rest)) time).log =
      [rest.foldl (fun _ q => q) a1 ++ [time]] := by
  have h1 : animCall AnimState.init a1 = ⟨some 0, [⟨0, a1⟩], 1, []⟩ := rfl
  show (animFrame (animCalls (animCall AnimState.init a1) rest) time).log = _
  rw [h1, animCalls_coalesce rest 0 a1 []]
  simp [animFrame]

/-- Invariant of a `throttle` instance: the scheduler holds no timer of
this instance, or exactly one, namely the one whose handle is stored in the
closure variable `timer`. -/
def throttleAtMostOne (s : ThrottleState) : Prop :=
  s.armed = [] ∨ ∃ hd f a, s.timer = some hd ∧ s.armed = [⟨hd, f, a⟩]

/-- Firing due timers preserves the `throttle` invariant. -/
lemma fireDue_atMostOne (s : ThrottleState) (now : Nat)
    (h : throttleAtMostOne s) : throttleAtMostOne (fireDue s now) := by
  rcases h with h | ⟨hd, f, a, ht, ha⟩
  · left; simp [fireDue, h]
  · by_cases hp : now < f
    · exact Or.inr ⟨hd, f, a, ht, by simp [fireDue, ha, hp]⟩
    · left; simp [fireDue, ha, hp]

/-- The immediate-invocation path of `throttle` preserves the invariant:
it cancels the tracked timer, leaving nothing armed. -/
lemma throttleImmediate_atMostOne (s : ThrottleState) (now : Nat)
    (args : List Int) (h : throttleAtMostOne s) :
    throttleAtMostOne (throttleImmediate s now args) := by
  left
  cases ht : s.timer with
  | none =>
    rcases h with h | ⟨hd, f, a, ht2, ha⟩
    · simp [throttleImmediate, ht, h]
    · rw [ht] at ht2; cases ht2
  | some hd =>
    rcases h with h | ⟨hd2, f, a, ht2, ha⟩
    · simp [throttleImmediate, ht, h]
    · rw [ht] at ht2
      injection ht2 with he
      subst he
      simp [throttleImmediate, ht, ha]

/-- A call to a `throttle`-wrapped function preserves the invariant: a new
timer is armed only when the closure's handle is `undefined`, in which case
nothing was armed. -/
lemma throttleCall_atMostOne (timeout : Nat) (e : Bool) (s : ThrottleState)
    (now : Nat) (args : List Int) (h : throttleAtMostOne s) :
    throttleAtMostOne (throttleCall timeout e s now args) := by
  unfold throttleCall
  cases hl : s.lastCall with
  | none => exact throttleImmediate_atMostOne s now args h
  | some lc =>
    by_cases hlt : timeout < now - lc
    · simp only [if_pos hlt]
      exact throttleImmediate_atMostOne s now args h
    · simp only [if_neg hlt]
      by_cases hg : e = true ∧ s.timer = none
      · simp only [if_pos hg]
        refine Or.inr ⟨s.nextId, now + timeout, args, rfl, ?_⟩
        have ha : s.armed = [] := by
          rcases h with h | ⟨hd, f, a, ht, _⟩
          · exact h
          · rw [hg.2] at ht; cases ht
        simp [ha]
      · simp only [if_neg hg]
        exact h

/-- Invariant of a `finalEvent` instance: nothing armed, or exactly the one
timer whose handle is stored in the closure. -/
def finalAtMostOne (s : FinalState) : Prop :=
  s.armed = [] ∨ ∃ hd f a, s.timer = some hd ∧ s.armed = [⟨hd, f, a⟩]

/-- Firing due timers preserves the `finalEvent` invariant. -/
lemma finalFireDue_atMostOne (s : FinalState) (now : Nat)
    (h : finalAtMostOne s) : finalAtMostOne (finalFireDue s now) := by
  rcases h with h | ⟨hd, f, a, ht, ha⟩
  · left; simp [finalFireDue, h]
  · by_cases hp : now < f
    · exact Or.inr ⟨hd, f, a, ht, by simp [finalFireDue, ha, hp]⟩
    · left; simp [finalFireDue, ha, hp]

/-- A call to a `finalEvent`-wrapped function preserves the invariant: it
cancels the tracked timer before arming the new one. -/
lemma finalCall_atMostOne (timeout : Nat) (s : FinalState) (now : Nat)
    (args : List Int) (h : finalAtMostOne s) :
    finalAtMostOne (finalCall timeout s now args) := by
  refine Or.inr ⟨s.nextId, now + timeout, args, rfl, ?_⟩
  cases ht : s.timer with
  | none =>
    have ha : s.armed = [] := by
      rcases h with h | ⟨hd, f, a, ht2, _⟩
      · exact h
      · rw [ht] at ht2; cases ht2
    simp [finalCall, ht, ha]
  | some hd =>
    rcases h with h | ⟨hd2, f, a, ht2, ha⟩
    · simp [finalCall, ht, h]
    · rw [ht] at ht2
      injection ht2 with he
      subst he
      simp [finalCall, ht, ha]

/-- Invariant of an `animationEvent` instance: no frame callback pending,
or exactly the one whose handle is stored in the closure. -/
def animAtMostOne (s : AnimState) : Prop :=
  s.pendingFrames = [] ∨ ∃ hd a, s.frame = some hd ∧ s.pendingFrames = [⟨hd, a⟩]

/-- A call to an `animationEvent`-wrapped function preserves the invariant:
it cancels the tracked frame request before issuing the new one. -/
lemma animCall_atMostOne (s : AnimState) (args : List Int)
    (h : animAtMostOne s) : animAtMostOne (animCall s args) := by
  refine Or.inr ⟨s.nextId, args, rfl, ?_⟩
  cases ht : s.frame with
  | none =>
    have ha : s.pendingFrames = [] := by
      rcases h with h | ⟨hd, a, ht2, _⟩
      · exact h
      · rw [ht] at ht2; cases ht2
    simp [animCall, ht, ha]
  | some hd =>
    rcases h with h | ⟨hd2, a, ht2, ha⟩
    · simp [animCall, ht, h]
    · rw [ht] at ht2
      injection ht2 with he
      subst he
      simp [animCall, ht, ha]

/-- Rendering a frame preserves the `animationEvent` invariant: every
pending frame callback runs and the pending set empties. -/
lemma animFrame_atMostOne (s : AnimState) (time : Int)
    (_h : animAtMostOne s) : animAtMostOne (animFrame s time) := by
  left; rfl

/-- C8: for every wrapper instance of `throttle`, `finalEvent` and
`animationEvent` and every sequence of calls and timer or frame firings, at
most one deferred invocation is pending in the host scheduler at any time. -/
theorem deferred_invocations_serialized (timeout : Nat) (e : Bool)
    (evsT : List ThrottleEv) (evsF : List FinalEv) (evsA : List AnimEv) :
    (throttleRunEv timeout e evsT).armed.length ≤ 1 ∧
    (finalRunEv timeout evsF).armed.length ≤ 1 ∧
    (animRunEv evsA).pendingFrames.length ≤ 1 := by
  refine ⟨?_, ?_, ?_⟩
  · have h : ∀ s, throttleAtMostOne s →
        throttleAtMostOne (evsT.foldl (throttleStepEv timeout e) s) := by
      induction evsT with
      | nil => exact fun s hs => hs
      | cons ev evs ih =>
        intro s hs
        apply ih
        cases ev with
        | call t a =>
          exact throttleCall_atMostOne timeout e _ t a
            (fireDue_atMostOne s t hs)
        | tick t => exact fireDue_atMostOne s t hs
    rcases h ThrottleState.init (Or.inl rfl) with h1 | ⟨_, _, _, _, h1⟩ <;>
      simp [throttleRunEv, h1]
  · have h : ∀ s, finalAtMostOne s →
        finalAtMostOne (evsF.foldl (finalStepEv timeout) s) := by
      induction evsF with
      | nil => exact fun s hs => hs
      | cons ev evs ih =>
        intro s hs
        apply ih
        cases ev with
        | call t a =>
          exact finalCall_atMostOne timeout _ t a
            (finalFireDue_atMostOne s t hs)
        | tick t => exact finalFireDue_atMostOne s t hs
    rcases h FinalState.init (Or.inl rfl) with h1 | ⟨_, _, _, _, h1⟩ <;>
      simp [finalRunEv, h1]
  · have h : ∀ s, animAtMostOne s →
        animAtMostOne (evsA.foldl animStepEv s) := by
      induction evsA with
      | nil => exact fun s hs => hs
      | cons ev evs ih =>
        intro s hs
        apply ih
        cases ev with
        | call a => exact animCall_atMostOne s a hs
        | frame t => exact animFrame_atMostOne s t hs
    rcases h AnimState.init (Or.inl rfl) with h1 | ⟨_, _, _, h1⟩ <;>
      simp [animRunEv, h1]

end Events
